import Mathlib

/-!
Verification of the `epic.caching` library: a shallow embedding of
`src/epic/caching/cached.py`, `src/epic/caching/property.py` and
`src/epic/caching/_cache.py`, together with theorems settling the claims
about content hashing, memoized calls, dependency-tracked properties,
the pickled (file-backed) property cache, per-key lock management and
the concurrency behaviour of the memoization path.
-/

namespace EpicCaching

/-! ## Python values, built-in hashing, and `_hash_content` (cached.py lines 19-39)

`PyVal` models the composite Python values that flow into `_hash_content`:
integers, strings, `None`, plain `dict`s and list/tuple-like iterables.
Plain dicts and lists have no `__dict__` attribute, an `int`/`str`/`None`
scalar falls through to the final `hash((obj, typename))` line, and a string
is explicitly excluded from the iterable branch by the
`not isinstance(obj, str | bytes | bytearray | IOBase)` guard, so for these
values the logger/namespace preprocessing of lines 21-34 is a no-op and the
function reduces to the mapping / iterable / scalar canonicalization of
lines 35-39, which is what is embedded here.

Python integer arithmetic for hashes is modelled over `Nat` with explicit
reduction: CPython combines tuple element hashes with a sequential
multiply-and-add (order-sensitive) and frozenset element hashes with a
commutative, associative mixing operation (order-independent); `tupleHash`
and `fsetHash` model exactly those two algebraic shapes. -/

inductive PyVal : Type
  | int (n : Int)
  | str (s : String)
  | pyNone
  | dict (entries : List (PyVal × PyVal))
  | list (elems : List PyVal)

/-- The hash word size: hashes are reduced modulo `2 ^ 64`. -/
def hashMod : Nat := 2 ^ 64

/-- Model of CPython's built-in string hash: a deterministic fold over the
characters, reduced into the hash range. -/
def pyHashStr (s : String) : Nat :=
  s.foldl (fun h c => (h * 31 + c.toNat) % (2 ^ 61 - 1)) 5381

/-- Model of CPython's tuple hash: an order-sensitive sequential combination
of the element hashes. -/
def tupleHash (hs : List Nat) : Nat :=
  hs.foldl (fun acc h => (acc * 1000003 + h) % hashMod) 5381

/-- Hash of a two-element tuple `(a, b)` of already-hashed components. -/
def pairHash (a b : Nat) : Nat := tupleHash [a, b]

/-- Model of CPython's frozenset hash: a commutative, associative combination
of the element hashes, hence independent of element order. -/
def fsetHash (hs : List Nat) : Nat := hs.sum % hashMod

/-- Model of Python's built-in `hash` on the values usable as dict keys.
`dict` and `list` values are unhashable in Python and can never occur as
dictionary keys; they are given an arbitrary fixed value to keep the
function total. -/
def pyHash : PyVal → Nat
  | .int n => (n % (2 ^ 61 - 1)).toNat
  | .str s => pyHashStr s
  | .pyNone => 5740354900026072187 % (2 ^ 61 - 1)
  | .dict _ => 0
  | .list _ => 0

/-- The Python type name of a value, folded into every content hash by
`hash((obj, typename))` on line 39 of cached.py. -/
def typeName : PyVal → String
  | .int _ => "int"
  | .str _ => "str"
  | .pyNone => "NoneType"
  | .dict _ => "dict"
  | .list _ => "list"

mutual

/-- `_hash_content` (cached.py lines 19-39) on the embedded values:
a mapping is canonicalized to the frozenset of `(key, _hash_content(value))`
pairs (line 36), a non-string iterable to the tuple of element content
hashes in order (line 38), and the result is always the hash of the pair
`(canonical form, typename)` (line 39). -/
def hashContent : PyVal → Nat
  | .int n => pairHash (pyHash (.int n)) (pyHashStr (typeName (.int n)))
  | .str s => pairHash (pyHash (.str s)) (pyHashStr (typeName (.str s)))
  | .pyNone => pairHash (pyHash .pyNone) (pyHashStr (typeName .pyNone))
  | .dict entries =>
      pairHash (fsetHash (hashContentEntries entries)) (pyHashStr (typeName (.dict entries)))
  | .list elems =>
      pairHash (tupleHash (hashContentList elems)) (pyHashStr (typeName (.list elems)))

/-- The element hashes of the frozenset built on line 36 of cached.py: each
dict entry `(k, v)` contributes the hash of the tuple `(k, _hash_content(v))`,
whose first component is hashed by Python's built-in `hash`. -/
def hashContentEntries : List (PyVal × PyVal) → List Nat
  | [] => []
  | (k, v) :: rest => pairHash (pyHash k) (hashContent v) :: hashContentEntries rest

/-- The element content hashes of an iterable, in iteration order
(line 38 of cached.py). -/
def hashContentList : List PyVal → List Nat
  | [] => []
  | x :: rest => hashContent x :: hashContentList rest

end

theorem hashContentEntries_eq_map (l : List (PyVal × PyVal)) :
    hashContentEntries l = l.map (fun kv => pairHash (pyHash kv.1) (hashContent kv.2)) := by
  induction l with
  | nil => rfl
  | cons hd tl ih =>
      obtain ⟨k, v⟩ := hd
      simp [hashContentEntries, ih]

/-! ## Cache stores and `_cached_call_impl` (cached.py lines 42-68)

A cache store (`Cache` in _cache.py) is a mutable mapping from integer
hash keys to values; it is embedded as an association list in which
`cache[key] = value` prepends and lookup returns the most recent binding,
exactly the observable dictionary semantics.  `_cached_call_impl` is
embedded as a sequential state transformer on the selected store: the scope
is validated first (lines 50-56), the key is the content hash of the
bound-argument mapping (line 62; the binding of the call arguments to
parameter names by `inspect.signature(...).bind` is taken as given, so
`args` below is already the bound-arguments mapping), and the
check / lock / re-check / compute / store sequence of lines 64-67 collapses
sequentially to: on a miss, invoke the callable once and store the result;
finally return `cache[key]` (line 68, which raises `KeyError` when the key
is absent).  The outcome records the returned value, the resulting store
and the number of invocations of the underlying callable. -/

/-- Dictionary lookup on the embedded store. -/
def lookupStore {V : Type} : List (Nat × V) → Nat → Option V
  | [], _ => Option.none
  | (k, v) :: rest, key => if k = key then some v else lookupStore rest key

/-- Dictionary update `cache[key] = value` on the embedded store. -/
def insertStore {V : Type} (store : List (Nat × V)) (key : Nat) (v : V) : List (Nat × V) :=
  (key, v) :: store

theorem lookupStore_insertStore {V : Type} (store : List (Nat × V)) (key : Nat) (v : V) :
    lookupStore (insertStore store key v) key = some v := by
  simp [insertStore, lookupStore]

/-- The outcome of one memoized call: the returned value, the store after
the call, and how many times the underlying callable was invoked. -/
structure CallOutcome (V : Type) where
  value : V
  store : List (Nat × V)
  calls : Nat

/-- `_cached_call_impl` (cached.py lines 42-68) as a sequential state
transformer over the store selected by `(scope, name)`.  The scope match of
lines 50-56 runs first and raises `ValueError` on anything other than
`thread` or `process`; both valid scopes then behave identically on the
given store (they differ only in which physical store is selected). -/
def cachedCallImpl {V : Type} (scope : String) (f : Unit → V) (args : PyVal)
    (store : List (Nat × V)) : Except String (CallOutcome V) :=
  if scope = "thread" ∨ scope = "process" then
    let key := hashContent args
    match lookupStore store key with
    | some v => Except.ok ⟨v, store, 0⟩
    | Option.none =>
        let r := f ()
        let store1 := insertStore store key r
        match lookupStore store1 key with
        | some v => Except.ok ⟨v, store1, 1⟩
        | Option.none => Except.error "KeyError"
  else
    Except.error ("Invalid scope \x27" ++ scope ++ "\x27")

/-! ## Dependency-tracked properties (property.py)

A host instance is embedded as its attribute map together with the single
`(snapshot, value)` slot that `_OwnedCache` keeps for one property inside
the host's own `ProcessCache('property_cache', owner.__dict__)` under the
property's name.  Attribute values are an arbitrary type `A`; an attribute
whose value is `None` — or, for `lazy_property`, an attribute that is not
set at all, which `getattr(owner, member, None)` makes indistinguishable
from `None` — is modelled as `Option.none`.  The property code compares
dependency values only with `==` / `!=` (never with `is` and never through
`_hash_content`), which is equality of the embedded values.

All property operations run sequentially under the property's per-key lock
(`_OwnedCache.lock`), so the lock/recheck pairs of the source collapse to
straight-line state transformations here; whether the lock was acquired at
all is recorded where a claim depends on it. -/

/-- A host instance, seen by one property: its attribute map and the
property's cache slot.  `attrs d = Option.none` models the attribute `d`
being `None` (or absent, for the `getattr(owner, d, None)` read of
`lazy_property`). -/
structure Host (A V : Type) where
  attrs : String → Option A
  slot : Option (List (Option A) × V)

/-- `cached_property`: the descriptor state relevant to the embedded
operations is its stored dependency-name set. -/
structure CachedProperty where
  dependencies : List String

/-- `cached_property.__init__` (property.py lines 85-93): the declared
dependency names are stored as `frozenset(dependencies)`.  A frozenset
keeps one copy of each distinct name in an implementation-defined iteration
order; it is embedded as the deduplicated list of the declared names (the
particular order `List.dedup` picks stands for the frozenset's fixed but
unspecified iteration order). -/
def CachedProperty.mkFromDeclared (declared : List String) : CachedProperty :=
  ⟨declared.dedup⟩

/-- `cached_property.dependency_values` (property.py lines 158-159): the
tuple of the current values of the stored dependency names, in the stored
set's iteration order. -/
def CachedProperty.dependency_values {A V : Type} (cp : CachedProperty) (h : Host A V) :
    List (Option A) :=
  cp.dependencies.map h.attrs

/-- `cached_property.__get__` with a non-`None` owner (property.py lines
176-188): read the current dependency values, then under the property's
lock compare them with the stored snapshot (`(None, None)` standing for an
empty slot, which a value tuple never equals); on mismatch invoke the
property's function with the host and store `(new snapshot, new value)`.
Returns the value, the resulting host and the number of invocations of the
property's function. -/
def CachedProperty.get {A V : Type} [DecidableEq A] (cp : CachedProperty)
    (f : Host A V → V) (h : Host A V) : V × Host A V × Nat :=
  let depValues := cp.dependency_values h
  match h.slot with
  | some (cachedDepValues, result) =>
      if depValues = cachedDepValues then
        (result, h, 0)
      else
        let r := f h
        (r, { h with slot := some (depValues, r) }, 1)
  | Option.none =>
      let r := f h
      (r, { h with slot := some (depValues, r) }, 1)

/-- `cached_property.__set__` (property.py lines 190-193): store
`(current snapshot, provided value)` under the lock. -/
def CachedProperty.set {A V : Type} (cp : CachedProperty) (h : Host A V) (v : V) :
    Host A V :=
  { h with slot := some (cp.dependency_values h, v) }

/-- `cached_property.__delete__` (property.py lines 195-200): only when the
slot is full, acquire the lock and clear it (`_OwnedCache.clear`, lines
25-27, re-checks presence before deleting).  The boolean records whether
the lock was acquired. -/
def CachedProperty.delete {A V : Type} (h : Host A V) : Host A V × Bool :=
  match h.slot with
  | Option.none => (h, false)
  | some _ => ({ h with slot := Option.none }, true)

/-- `cached_property.is_cache_valid` (property.py lines 161-169): false when
the slot is empty, otherwise whether the stored snapshot equals the current
dependency values (compared with `==`). -/
def CachedProperty.is_cache_valid {A V : Type} [DecidableEq A] (cp : CachedProperty)
    (h : Host A V) : Bool :=
  match h.slot with
  | Option.none => false
  | some (cachedDepValues, _) => decide (cachedDepValues = cp.dependency_values h)

/-- `lazy_property.__get__` with a non-`None` owner (property.py lines
315-322): if any stored dependency reads as `None` via
`getattr(owner, member, None)`, return the `None` sentinel immediately;
otherwise delegate to `cached_property.__get__`.  The sentinel is
`Option.none` in the first component. -/
def lazyPropertyGet {A V : Type} [DecidableEq A] (cp : CachedProperty)
    (f : Host A V → V) (h : Host A V) : Option V × Host A V × Nat :=
  if cp.dependencies.any (fun member => (h.attrs member).isNone) then
    (Option.none, h, 0)
  else
    let (v, h1, c) := cp.get f h
    (some v, h1, c)

/-! ## The pickled property cache (`_OwnedPicklerCache`, property.py lines 203-234)

The backing file resolved from the filename template is embedded as
`Option S`: `some item` when the file exists with the pickled
`(snapshot, value)` pair `item`, `Option.none` when it does not exist.
`retrieve` and `full` never invoke the property's computation; `retrieve`
signals a missing slot-and-file as a `KeyError`, the not-found condition
that makes `__get__` fall back to normal computation. -/

/-- The state `_OwnedPicklerCache` operates on: the in-memory slot and the
resolved backing file. -/
structure PicklerState (S : Type) where
  slot : Option S
  file : Option S

/-- `_OwnedPicklerCache.retrieve` (property.py lines 213-221): prefer the
in-memory slot; on an in-memory miss, if the file exists load its contents
into the slot and return them, otherwise raise `KeyError`. -/
def picklerRetrieve {S : Type} (st : PicklerState S) : Except Unit (S × PicklerState S) :=
  match st.slot with
  | some item => Except.ok (item, st)
  | Option.none =>
      match st.file with
      | some item => Except.ok (item, { st with slot := some item })
      | Option.none => Except.error ()

/-- `_OwnedPicklerCache.full` (property.py lines 233-234): the in-memory
slot is occupied or the file exists. -/
def picklerFull {S : Type} (st : PicklerState S) : Bool :=
  st.slot.isSome || st.file.isSome

/-! ## `ProcessCache.lock` in unbounded per-key mode (_cache.py lines 71-78)

One execution of the `lock` context manager by a single thread is embedded
as the ordered trace of its lock-relevant events.  The source is

```
try:
    with self.locks[hash(key) % self.n_locks if self.n_locks else key]:
        yield
finally:
    if not self.n_locks and key not in self.cache:
        del self.locks[key]
```

so the order of events is: the `with` statement acquires the selected lock,
the caller's critical section runs at `yield`, the `with` statement exits —
releasing the lock — and only then does the `finally` clause run, deleting
the per-key lock entry when `n_locks == 0` and the key is still absent from
the store.  This order is the same whether the body returns normally or
raises. -/

/-- The observable events of one `ProcessCache.lock` execution. -/
inductive LockEv : Type
  | acquireLock : LockEv
  | criticalSection : LockEv
  | releaseLock : LockEv
  | removeLockEntry : LockEv
deriving DecidableEq

/-- The event trace of one execution of `ProcessCache.lock` (_cache.py lines
71-78), given the configured pool size and whether the key is absent from
the store when the `finally` clause runs. -/
def processCacheLockTrace (nLocks : Nat) (keyAbsentAfterBody : Bool) : List LockEv :=
  [LockEv.acquireLock, LockEv.criticalSection, LockEv.releaseLock] ++
    (if nLocks = 0 ∧ keyAbsentAfterBody = true then [LockEv.removeLockEntry] else [])

/-! ## Concurrent memoized calls for one key (cached.py lines 64-68)

`N` threads each run the double-checked sequence of `_cached_call_impl`

```
if key not in cache:
    with cache.lock(key):
        if key not in cache:
            cache[key] = callfunc(*args, **kwargs)
return cache[key]
```

against one shared process-scoped store, for one fixed key.  `cached.py`
line 54 constructs the `ProcessCache` with `n_locks=100`, the bounded-pool
mode, so every thread contends on the single pool lock indexed by
`hash(key) % 100` and that lock is never removed (the removal branch of
`_cache.py` line 77 requires `n_locks == 0`).  The shared state is the one
store cell for the key, the shared invocation counter of the underlying
computation, the lock holder, and each thread's program counter; a `Step`
is one atomic action of one thread, and any interleaving is a sequence of
steps. -/

/-- The program counter of one thread running the memoized-call sequence:
first containment check, waiting to acquire the key's lock, holding the
lock before the re-check, about to invoke the computation, about to store
the result, about to release, and done. -/
inductive PC : Type
  | start
  | waiting
  | locked
  | compute
  | storing
  | release
  | ret
deriving DecidableEq

/-- The shared state of `n` threads memoizing one key: the store cell for
the key, the number of executions of the underlying computation, the lock
holder, and every thread's program counter. -/
structure MTState (n : Nat) where
  store : Option Nat
  counter : Nat
  holder : Option (Fin n)
  pc : Fin n → PC

/-- Point update of a program-counter map. -/
def upd {n : Nat} (f : Fin n → PC) (t : Fin n) (p : PC) : Fin n → PC :=
  fun x => if x = t then p else f x

/-- The initial state: key absent, computation never run, lock free, every
thread before its first containment check. -/
def initState (n : Nat) : MTState n :=
  ⟨Option.none, 0, Option.none, fun _ => PC.start⟩

/-- One atomic action of one thread in the double-checked memoization
sequence of cached.py lines 64-68. -/
inductive Step {n : Nat} : MTState n → MTState n → Prop
  | checkHit (s : MTState n) (t : Fin n) (h : s.pc t = PC.start)
      (hs : s.store.isSome = true) :
      Step s { s with pc := upd s.pc t PC.ret }
  | checkMiss (s : MTState n) (t : Fin n) (h : s.pc t = PC.start)
      (hs : s.store = Option.none) :
      Step s { s with pc := upd s.pc t PC.waiting }
  | acquire (s : MTState n) (t : Fin n) (h : s.pc t = PC.waiting)
      (hl : s.holder = Option.none) :
      Step s { s with holder := some t, pc := upd s.pc t PC.locked }
  | recheckHit (s : MTState n) (t : Fin n) (h : s.pc t = PC.locked)
      (hs : s.store.isSome = true) :
      Step s { s with pc := upd s.pc t PC.release }
  | recheckMiss (s : MTState n) (t : Fin n) (h : s.pc t = PC.locked)
      (hs : s.store = Option.none) :
      Step s { s with pc := upd s.pc t PC.compute }
  | callUnderlying (s : MTState n) (t : Fin n) (h : s.pc t = PC.compute) :
      Step s { s with counter := s.counter + 1, pc := upd s.pc t PC.storing }
  | storeResult (s : MTState n) (t : Fin n) (v : Nat) (h : s.pc t = PC.storing) :
      Step s { s with store := some v, pc := upd s.pc t PC.release }
  | releaseLock (s : MTState n) (t : Fin n) (h : s.pc t = PC.release) :
      Step s { s with holder := Option.none, pc := upd s.pc t PC.ret }

/-- The states reachable from the initial state by any interleaving. -/
inductive Reaches {n : Nat} : MTState n → Prop
  | init : Reaches (initState n)
  | next {s s1 : MTState n} : Reaches s → Step s s1 → Reaches s1

/-- The program counters a thread can only hold while it owns the key's
lock. -/
def HeldPC (p : PC) : Prop :=
  p = PC.locked ∨ p = PC.compute ∨ p = PC.storing ∨ p = PC.release

/-- The inductive invariant of the interleaving semantics: lock ownership
for the in-critical-section program counters, the store still absent while
a thread is between its re-check and its store, the store present once a
thread is past its successful section, and the counter determined by
whether the computation has run (the store is filled, or a thread is about
to fill it). -/
def Inv {n : Nat} (s : MTState n) : Prop :=
  (∀ t, HeldPC (s.pc t) → s.holder = some t) ∧
  (∀ t, s.pc t = PC.compute ∨ s.pc t = PC.storing → s.store = Option.none) ∧
  (∀ t, s.pc t = PC.release ∨ s.pc t = PC.ret → s.store.isSome = true) ∧
  (s.store.isSome = true ∨ (∃ t, s.pc t = PC.storing) → s.counter = 1) ∧
  (s.store = Option.none → (∀ t, s.pc t ≠ PC.storing) → s.counter = 0)

theorem exists_storing_of_upd {n : Nat} {f : Fin n → PC} {t : Fin n} {p : PC}
    (hp : p ≠ PC.storing) (hx : ∃ x, upd f t p x = PC.storing) :
    ∃ x, f x = PC.storing := by
  obtain ⟨x, hxx⟩ := hx
  by_cases hxt : x = t
  · subst hxt
    simp [upd] at hxx
    exact absurd hxx hp
  · exact ⟨x, by simpa [upd, hxt] using hxx⟩

theorem forall_not_storing_to_orig {n : Nat} {f : Fin n → PC} {t : Fin n} {p : PC}
    (hft : f t ≠ PC.storing) (hall : ∀ x, upd f t p x ≠ PC.storing) :
    ∀ x, f x ≠ PC.storing := by
  intro x
  by_cases hxt : x = t
  · subst hxt
    exact hft
  · intro hc
    exact hall x (by simpa [upd, hxt] using hc)

theorem inv_init (n : Nat) : Inv (initState n) := by
  refine ⟨?_, ?_, ?_, ?_, ?_⟩
  · intro t ht
    simp [initState, HeldPC] at ht
  · intro t ht
    simp [initState] at ht
  · intro t ht
    simp [initState] at ht
  · intro hor
    rcases hor with hsome | ⟨t, ht⟩
    · simp [initState] at hsome
    · simp [initState] at ht
  · intro _ _
    rfl

theorem inv_step {n : Nat} {s s1 : MTState n} (hin : Inv s) (hstep : Step s s1) :
    Inv s1 := by
  obtain ⟨h1, h2, h3, h4, h5⟩ := hin
  cases hstep with
  | checkHit t h hs =>
      refine ⟨?_, ?_, ?_, ?_, ?_⟩
      · intro t1 ht1
        by_cases hx : t1 = t
        · subst hx
          simp [upd, HeldPC] at ht1
        · exact h1 t1 (by simpa [upd, hx] using ht1)
      · intro t1 ht1
        by_cases hx : t1 = t
        · subst hx
          simp [upd] at ht1
        · exact h2 t1 (by simpa [upd, hx] using ht1)
      · intro t1 ht1
        by_cases hx : t1 = t
        · exact hs
        · exact h3 t1 (by simpa [upd, hx] using ht1)
      · intro hor
        refine h4 ?_
        rcases hor with hsome | hex
        · exact Or.inl hsome
        · exact Or.inr (exists_storing_of_upd (by decide) hex)
      · intro hnone hall
        exact h5 hnone (forall_not_storing_to_orig (by simp [h]) hall)
  | checkMiss t h hs =>
      refine ⟨?_, ?_, ?_, ?_, ?_⟩
      · intro t1 ht1
        by_cases hx : t1 = t
        · subst hx
          simp [upd, HeldPC] at ht1
        · exact h1 t1 (by simpa [upd, hx] using ht1)
      · intro t1 _
        exact hs
      · intro t1 ht1
        by_cases hx : t1 = t
        · subst hx
          simp [upd] at ht1
        · exact h3 t1 (by simpa [upd, hx] using ht1)
      · intro hor
        refine h4 ?_
        rcases hor with hsome | hex
        · exact Or.inl hsome
        · exact Or.inr (exists_storing_of_upd (by decide) hex)
      · intro _ hall
        exact h5 hs (forall_not_storing_to_orig (by simp [h]) hall)
  | acquire t h hl =>
      refine ⟨?_, ?_, ?_, ?_, ?_⟩
      · intro t1 ht1
        by_cases hx : t1 = t
        · subst hx
          rfl
        · exact absurd (h1 t1 (by simpa [upd, hx] using ht1)) (by simp [hl])
      · intro t1 ht1
        by_cases hx : t1 = t
        · subst hx
          simp [upd] at ht1
        · exact h2 t1 (by simpa [upd, hx] using ht1)
      · intro t1 ht1
        by_cases hx : t1 = t
        · subst hx
          simp [upd] at ht1
        · exact h3 t1 (by simpa [upd, hx] using ht1)
      · intro hor
        refine h4 ?_
        rcases hor with hsome | hex
        · exact Or.inl hsome
        · exact Or.inr (exists_storing_of_upd (by decide) hex)
      · intro hnone hall
        exact h5 hnone (forall_not_storing_to_orig (by simp [h]) hall)
  | recheckHit t h hs =>
      refine ⟨?_, ?_, ?_, ?_, ?_⟩
      · intro t1 ht1
        by_cases hx : t1 = t
        · subst hx
          exact h1 t1 (by simp [HeldPC, h])
        · exact h1 t1 (by simpa [upd, hx] using ht1)
      · intro t1 ht1
        by_cases hx : t1 = t
        · subst hx
          simp [upd] at ht1
        · exact h2 t1 (by simpa [upd, hx] using ht1)
      · intro t1 ht1
        by_cases hx : t1 = t
        · exact hs
        · exact h3 t1 (by simpa [upd, hx] using ht1)
      · intro hor
        refine h4 ?_
        rcases hor with hsome | hex
        · exact Or.inl hsome
        · exact Or.inr (exists_storing_of_upd (by decide) hex)
      · intro hnone _
        rw [hnone] at hs
        simp at hs
  | recheckMiss t h hs =>
      refine ⟨?_, ?_, ?_, ?_, ?_⟩
      · intro t1 ht1
        by_cases hx : t1 = t
        · subst hx
          exact h1 t1 (by simp [HeldPC, h])
        · exact h1 t1 (by simpa [upd, hx] using ht1)
      · intro t1 _
        exact hs
      · intro t1 ht1
        by_cases hx : t1 = t
        · subst hx
          simp [upd] at ht1
        · exact h3 t1 (by simpa [upd, hx] using ht1)
      · intro hor
        refine h4 ?_
        rcases hor with hsome | hex
        · exact Or.inl hsome
        · exact Or.inr (exists_storing_of_upd (by decide) hex)
      · intro _ hall
        exact h5 hs (forall_not_storing_to_orig (by simp [h]) hall)
  | callUnderlying t h =>
      have hnost : ∀ x, s.pc x ≠ PC.storing := by
        intro x hcx
        have hhx := h1 x (by simp [HeldPC, hcx])
        have hht := h1 t (by simp [HeldPC, h])
        rw [hhx] at hht
        have hxt : x = t := Option.some.inj hht
        subst hxt
        rw [h] at hcx
        exact absurd hcx (by decide)
      have hc0 : s.counter = 0 := h5 (h2 t (Or.inl h)) hnost
      refine ⟨?_, ?_, ?_, ?_, ?_⟩
      · intro t1 ht1
        by_cases hx : t1 = t
        · subst hx
          exact h1 t1 (by simp [HeldPC, h])
        · exact h1 t1 (by simpa [upd, hx] using ht1)
      · intro t1 _
        exact h2 t (Or.inl h)
      · intro t1 ht1
        by_cases hx : t1 = t
        · subst hx
          simp [upd] at ht1
        · exact h3 t1 (by simpa [upd, hx] using ht1)
      · intro _
        show s.counter + 1 = 1
        rw [hc0]
      · intro _ hall
        exact absurd (show upd s.pc t PC.storing t = PC.storing by simp [upd]) (hall t)
  | storeResult t v h =>
      refine ⟨?_, ?_, ?_, ?_, ?_⟩
      · intro t1 ht1
        by_cases hx : t1 = t
        · subst hx
          exact h1 t1 (by simp [HeldPC, h])
        · exact h1 t1 (by simpa [upd, hx] using ht1)
      · intro t1 ht1
        by_cases hx : t1 = t
        · subst hx
          simp [upd] at ht1
        · exfalso
          have ht1o : s.pc t1 = PC.compute ∨ s.pc t1 = PC.storing := by
            simpa [upd, hx] using ht1
          have hhx := h1 t1 (by rcases ht1o with hh | hh <;> simp [HeldPC, hh])
          have hht := h1 t (by simp [HeldPC, h])
          rw [hhx] at hht
          exact hx (Option.some.inj hht)
      · intro t1 _
        rfl
      · intro _
        exact h4 (Or.inr ⟨t, h⟩)
      · intro hnone _
        simp at hnone
  | releaseLock t h =>
      refine ⟨?_, ?_, ?_, ?_, ?_⟩
      · intro t1 ht1
        by_cases hx : t1 = t
        · subst hx
          simp [upd, HeldPC] at ht1
        · exfalso
          have hhx := h1 t1 (by simpa [upd, hx] using ht1)
          have hht := h1 t (by simp [HeldPC, h])
          rw [hhx] at hht
          exact hx (Option.some.inj hht)
      · intro t1 ht1
        by_cases hx : t1 = t
        · subst hx
          simp [upd] at ht1
        · exact h2 t1 (by simpa [upd, hx] using ht1)
      · intro t1 ht1
        by_cases hx : t1 = t
        · exact h3 t (Or.inl h)
        · exact h3 t1 (by simpa [upd, hx] using ht1)
      · intro hor
        refine h4 ?_
        rcases hor with hsome | hex
        · exact Or.inl hsome
        · exact Or.inr (exists_storing_of_upd (by decide) hex)
      · intro hnone hall
        exact h5 hnone (forall_not_storing_to_orig (by simp [h]) hall)

theorem inv_reaches {n : Nat} {s : MTState n} (h : Reaches s) : Inv s := by
  induction h with
  | init => exact inv_init n
  | next _ hstep ih => exact inv_step ih hstep

/-! A concrete two-thread interleaving: thread 0 misses, acquires, computes
and stores while thread 1 waits; thread 1 then acquires, re-checks, hits and
releases.  Used to exhibit a reachable all-done state. -/

def run0 : MTState 2 := initState 2

def run1 : MTState 2 := { run0 with pc := upd run0.pc 0 PC.waiting }

def run2 : MTState 2 := { run1 with pc := upd run1.pc 1 PC.waiting }

def run3 : MTState 2 := { run2 with holder := some 0, pc := upd run2.pc 0 PC.locked }

def run4 : MTState 2 := { run3 with pc := upd run3.pc 0 PC.compute }

def run5 : MTState 2 := { run4 with counter := run4.counter + 1, pc := upd run4.pc 0 PC.storing }

def run6 : MTState 2 := { run5 with store := some 7, pc := upd run5.pc 0 PC.release }

def run7 : MTState 2 := { run6 with holder := Option.none, pc := upd run6.pc 0 PC.ret }

def run8 : MTState 2 := { run7 with holder := some 1, pc := upd run7.pc 1 PC.locked }

def run9 : MTState 2 := { run8 with pc := upd run8.pc 1 PC.release }

def run10 : MTState 2 := { run9 with holder := Option.none, pc := upd run9.pc 1 PC.ret }

theorem run10_reaches : Reaches run10 :=
  Reaches.next
    (Reaches.next
      (Reaches.next
        (Reaches.next
          (Reaches.next
            (Reaches.next
              (Reaches.next
                (Reaches.next
                  (Reaches.next
                    (Reaches.next Reaches.init
                      (Step.checkMiss run0 0 (by decide) (by decide)))
                    (Step.checkMiss run1 1 (by decide) (by decide)))
                  (Step.acquire run2 0 (by decide) (by decide)))
                (Step.recheckMiss run3 0 (by decide) (by decide)))
              (Step.callUnderlying run4 0 (by decide)))
            (Step.storeResult run5 0 7 (by decide)))
          (Step.releaseLock run6 0 (by decide)))
        (Step.acquire run7 1 (by decide) (by decide)))
      (Step.recheckHit run8 1 (by decide) (by decide)))
    (Step.releaseLock run9 1 (by decide))

/-! ## Claims -/

/-- C1: for a memoized call with a fixed scope and cache name, if the derived
content-hash key is present in the selected store the callable is not invoked
and the stored value is returned; if it is absent the callable is invoked
exactly once, the result is stored under the key and returned; and a second
call whose bound arguments hash equal returns the identical cached result
without invoking the callable again. -/
theorem cached_call_memoizes {V : Type} (scope : String)
    (hscope : scope = "thread" ∨ scope = "process") (f : Unit → V) (a b : PyVal)
    (hab : hashContent a = hashContent b) (store : List (Nat × V)) :
    (∀ v, lookupStore store (hashContent a) = some v →
        cachedCallImpl scope f a store = Except.ok ⟨v, store, 0⟩) ∧
    (lookupStore store (hashContent a) = Option.none →
        cachedCallImpl scope f a store
          = Except.ok ⟨f (), insertStore store (hashContent a) (f ()), 1⟩) ∧
    (∃ out, cachedCallImpl scope f a store = Except.ok out ∧
        cachedCallImpl scope f b out.store = Except.ok ⟨out.value, out.store, 0⟩) := by
  refine ⟨?_, ?_, ?_⟩
  · intro v hv
    unfold cachedCallImpl
    rw [if_pos hscope]
    simp only [hv]
  · intro hv
    unfold cachedCallImpl
    rw [if_pos hscope]
    simp only [hv, lookupStore_insertStore]
  · rcases hlook : lookupStore store (hashContent a) with _ | v
    · refine ⟨⟨f (), insertStore store (hashContent a) (f ()), 1⟩, ?_, ?_⟩
      · unfold cachedCallImpl
        rw [if_pos hscope]
        simp only [hlook, lookupStore_insertStore]
      · unfold cachedCallImpl
        rw [if_pos hscope, ← hab]
        simp only [lookupStore_insertStore]
    · refine ⟨⟨v, store, 0⟩, ?_, ?_⟩
      · unfold cachedCallImpl
        rw [if_pos hscope]
        simp only [hlook]
      · unfold cachedCallImpl
        rw [if_pos hscope, ← hab]
        simp only [hlook]

/-- C1 witness: a concrete process-scoped call on an empty store invokes the
callable once and stores the result under the content hash of the bound
arguments. -/
theorem cached_call_memoizes_check :
    cachedCallImpl "process" (fun _ => (42 : Nat)) (PyVal.int 3) []
      = Except.ok ⟨42, insertStore [] (hashContent (PyVal.int 3)) 42, 1⟩ :=
  (cached_call_memoizes "process" (Or.inr rfl) (fun _ => (42 : Nat)) (PyVal.int 3)
      (PyVal.int 3) rfl []).2.1 rfl

/-- C3: a memoized call with a scope other than `thread` or `process` raises
`ValueError` at call time; the result is this error for every callable,
argument set and store state, so no key derivation, lookup or store
modification takes place. -/
theorem cached_call_invalid_scope {V : Type} (scope : String)
    (hth : scope ≠ "thread") (hpr : scope ≠ "process") (f : Unit → V) (args : PyVal)
    (store : List (Nat × V)) :
    cachedCallImpl scope f args store
      = Except.error ("Invalid scope \x27" ++ scope ++ "\x27") := by
  unfold cachedCallImpl
  rw [if_neg (by simp [hth, hpr])]

/-- C3 witness: the concrete scope string `invalid` produces the
`ValueError` on an empty store. -/
theorem cached_call_invalid_scope_check :
    cachedCallImpl "invalid" (fun _ => (0 : Nat)) (PyVal.int 0) []
      = Except.error ("Invalid scope \x27" ++ "invalid" ++ "\x27") :=
  cached_call_invalid_scope "invalid" (by decide) (by decide)
    (fun _ => (0 : Nat)) (PyVal.int 0) []

/-- C4: two mapping values that are equal as mappings — the same key/sub-value
pairs in any order — receive the same content hash: the canonical form is the
order-independent frozenset of `(key, hash(sub-value))` pairs, so permuting
the entries never changes the result. -/
theorem hash_content_mapping_order_independent (e1 e2 : List (PyVal × PyVal))
    (hperm : e1.Perm e2) :
    hashContent (PyVal.dict e1) = hashContent (PyVal.dict e2) := by
  have hmap : (e1.map (fun kv => pairHash (pyHash kv.1) (hashContent kv.2))).Perm
      (e2.map (fun kv => pairHash (pyHash kv.1) (hashContent kv.2))) := hperm.map _
  simp only [hashContent, hashContentEntries_eq_map, fsetHash, typeName, hmap.sum_eq]

/-- C4 witness: swapping the two entries of a concrete mapping leaves the
content hash unchanged. -/
theorem hash_content_mapping_order_independent_check :
    hashContent (PyVal.dict [(PyVal.str "a", PyVal.int 1), (PyVal.str "b", PyVal.int 2)])
      = hashContent
          (PyVal.dict [(PyVal.str "b", PyVal.int 2), (PyVal.str "a", PyVal.int 1)]) :=
  hash_content_mapping_order_independent _ _ (List.Perm.swap _ _ _)

/-- C5: in unbounded per-key mode with the key absent after the critical
section, one `ProcessCache.lock` execution acquires, runs the body, releases,
and only then removes the per-key lock entry — the removal happens after the
lock has been released, not while it is held; with the key present (or a
bounded pool) no removal happens. -/
theorem lock_entry_removed_after_release :
    processCacheLockTrace 0 true
        = [LockEv.acquireLock, LockEv.criticalSection, LockEv.releaseLock,
            LockEv.removeLockEntry] ∧
    processCacheLockTrace 0 false
        = [LockEv.acquireLock, LockEv.criticalSection, LockEv.releaseLock] ∧
    (processCacheLockTrace 0 true).indexOf LockEv.releaseLock
      < (processCacheLockTrace 0 true).indexOf LockEv.removeLockEntry := by
  decide

/-- C6: on a pickled-property read with the in-memory slot absent, an existing
backing file is loaded into the slot and its `(snapshot, value)` contents are
returned; a missing file raises the `KeyError` not-found signal; and presence
holds exactly when the slot or the file exists. -/
theorem pickler_retrieve_read_miss {S : Type} (st : PicklerState S) :
    (∀ item, st.slot = Option.none → st.file = some item →
        picklerRetrieve st = Except.ok (item, { st with slot := some item })) ∧
    (st.slot = Option.none → st.file = Option.none →
        picklerRetrieve st = Except.error ()) ∧
    (picklerFull st = true ↔ st.slot.isSome = true ∨ st.file.isSome = true) := by
  refine ⟨?_, ?_, ?_⟩
  · intro item hslot hfile
    simp [picklerRetrieve, hslot, hfile]
  · intro hslot hfile
    simp [picklerRetrieve, hslot, hfile]
  · simp [picklerFull]

/-- C6 witness: a concrete empty slot with an existing file loads the file
contents into the slot and returns them. -/
theorem pickler_retrieve_read_miss_check :
    picklerRetrieve
        ({ slot := Option.none, file := some ([Option.none], 3) }
          : PicklerState (List (Option Nat) × Nat))
      = Except.ok (([Option.none], 3),
          { slot := some ([Option.none], 3), file := some ([Option.none], 3) }) :=
  (pickler_retrieve_read_miss
      { slot := Option.none, file := some ([Option.none], 3) }).1
    ([Option.none], 3) rfl rfl

/-- C10: deleting a cached property whose slot is already empty is a silent
no-op — it raises nothing (the operation is total), acquires no lock, and
leaves the host unchanged. -/
theorem cached_property_delete_empty_noop {A V : Type} (h : Host A V)
    (hempty : h.slot = Option.none) :
    CachedProperty.delete h = (h, false) := by
  simp [CachedProperty.delete, hempty]

/-- C10 witness: deleting on a concrete host with an empty slot changes
nothing and acquires no lock. -/
theorem cached_property_delete_empty_noop_check :
    CachedProperty.delete (A := Nat) (V := Nat)
        { attrs := fun _ => Option.none, slot := Option.none }
      = ({ attrs := fun _ => Option.none, slot := Option.none }, false) :=
  cached_property_delete_empty_noop
    { attrs := fun _ => Option.none, slot := Option.none } rfl

/-- C2: a cached-property read returns the stored value without invoking the
property's function exactly when a slot is present whose stored snapshot
equals the freshly computed one; otherwise the function is invoked with the
host, `(new snapshot, new value)` is stored in the slot, and the new value is
returned. -/
theorem cached_property_get_correct {A V : Type} [DecidableEq A] (cp : CachedProperty)
    (f : Host A V → V) (h : Host A V) :
    (∀ v, h.slot = some (cp.dependency_values h, v) → cp.get f h = (v, h, 0)) ∧
    ((∀ v, h.slot ≠ some (cp.dependency_values h, v)) →
        cp.get f h = (f h, { h with slot := some (cp.dependency_values h, f h) }, 1)) ∧
    ((cp.get f h).2.2 = 0 ↔ ∃ v, h.slot = some (cp.dependency_values h, v)) := by
  have hc1 : ∀ v, h.slot = some (cp.dependency_values h, v) → cp.get f h = (v, h, 0) := by
    intro v hv
    unfold CachedProperty.get
    rw [hv]
    simp
  have hc2 : (∀ v, h.slot ≠ some (cp.dependency_values h, v)) →
      cp.get f h = (f h, { h with slot := some (cp.dependency_values h, f h) }, 1) := by
    intro hne
    rcases hslot : h.slot with _ | ⟨snap, v0⟩
    · unfold CachedProperty.get
      rw [hslot]
    · have hd : ¬ (cp.dependency_values h = snap) := by
        intro he
        exact hne v0 (by rw [hslot, he])
      unfold CachedProperty.get
      rw [hslot]
      simp [hd]
  refine ⟨hc1, hc2, ?_⟩
  constructor
  · intro h0
    by_contra hnex
    push_neg at hnex
    rw [hc2 hnex] at h0
    simp at h0
  · rintro ⟨v, hv⟩
    rw [hc1 v hv]

/-- C2 witness: on a concrete host whose slot matches the current (empty)
dependency snapshot, the read returns the stored value with zero
invocations. -/
theorem cached_property_get_correct_check :
    CachedProperty.get (A := Nat) ⟨[]⟩ (fun _ => (9 : Nat))
        { attrs := fun _ => Option.none, slot := some ([], 5) }
      = (5, { attrs := fun _ => Option.none, slot := some ([], 5) }, 0) :=
  (cached_property_get_correct ⟨[]⟩ (fun _ => (9 : Nat))
      { attrs := fun _ => Option.none, slot := some ([], 5) }).1 5 rfl

/-- C7: a lazy-property read with some declared dependency unset or `None`
returns the `None` sentinel immediately, without invoking the function and
with the host unchanged; with all dependencies present it behaves exactly as
the cached-property read. -/
theorem lazy_property_sentinel {A V : Type} [DecidableEq A] (cp : CachedProperty)
    (f : Host A V → V) (h : Host A V) :
    ((∃ d ∈ cp.dependencies, h.attrs d = Option.none) →
        lazyPropertyGet cp f h = (Option.none, h, 0)) ∧
    ((∀ d ∈ cp.dependencies, h.attrs d ≠ Option.none) →
        lazyPropertyGet cp f h
          = (some (cp.get f h).1, (cp.get f h).2.1, (cp.get f h).2.2)) := by
  constructor
  · rintro ⟨d, hd, hnone⟩
    have hany : cp.dependencies.any (fun member => (h.attrs member).isNone) = true := by
      rw [List.any_eq_true]
      exact ⟨d, hd, by simp [hnone]⟩
    simp [lazyPropertyGet, hany]
  · intro hall
    have hany : cp.dependencies.any (fun member => (h.attrs member).isNone) = false := by
      rw [List.any_eq_false]
      intro d hd
      simp [Option.isNone_iff_eq_none]
      exact hall d hd
    rcases hget : cp.get f h with ⟨v, hh1, c⟩
    simp [lazyPropertyGet, hany, hget]

/-- C7 witness: a concrete host with its single dependency unset yields the
sentinel, an unchanged host and zero invocations. -/
theorem lazy_property_sentinel_check :
    lazyPropertyGet (A := Nat) (V := Nat) ⟨["x"]⟩ (fun _ => 1)
        { attrs := fun _ => Option.none, slot := Option.none }
      = (Option.none, { attrs := fun _ => Option.none, slot := Option.none }, 0) :=
  (lazy_property_sentinel ⟨["x"]⟩ (fun _ => 1)
      { attrs := fun _ => Option.none, slot := Option.none }).1
    ⟨"x", by simp, rfl⟩

/-- C8 counterexample: the stored dependency set is a frozenset of the
declared names, so declaring the same dependency twice yields a snapshot with
one entry, not the two-entry tuple of the values in declaration order that
the claim asserts. -/
theorem dependency_snapshot_not_declaration_tuple :
    ¬ (CachedProperty.dependency_values (V := Nat)
          (CachedProperty.mkFromDeclared ["x", "x"])
          { attrs := fun _ => some (1 : Nat), slot := Option.none }
        = ["x", "x"].map
            ({ attrs := fun _ => some (1 : Nat),
               slot := (Option.none : Option (List (Option Nat) × Nat)) } : Host Nat Nat).attrs) := by
  decide

/-- C8 amended: the dependency snapshot used for storage and validity
comparison is the tuple of the current values of the distinct declared
dependency names, in the stored dependency set's fixed (but not
declaration-given) iteration order, and validity holds exactly when a slot
exists whose stored snapshot equals that tuple — an equality comparison of
snapshots. -/
theorem dependency_snapshot_amended {A V : Type} [DecidableEq A] (declared : List String)
    (f : Host A V → V) (h : Host A V) :
    CachedProperty.dependency_values (CachedProperty.mkFromDeclared declared) h
        = declared.dedup.map h.attrs ∧
    (h.slot = Option.none →
        ((CachedProperty.mkFromDeclared declared).get f h).2.1.slot
          = some (declared.dedup.map h.attrs, f h)) ∧
    ((CachedProperty.mkFromDeclared declared).is_cache_valid h = true ↔
        ∃ v, h.slot = some (declared.dedup.map h.attrs, v)) := by
  refine ⟨rfl, ?_, ?_⟩
  · intro hslot
    unfold CachedProperty.get
    rw [hslot]
    simp [CachedProperty.dependency_values, CachedProperty.mkFromDeclared]
  · rcases hslot : h.slot with _ | ⟨snap, v0⟩
    · simp [CachedProperty.is_cache_valid, hslot]
    · simp [CachedProperty.is_cache_valid, hslot, CachedProperty.dependency_values,
        CachedProperty.mkFromDeclared]

/-- C8 witness: a concrete host whose slot stores the deduplicated snapshot
is reported valid. -/
theorem dependency_snapshot_amended_check :
    CachedProperty.is_cache_valid (A := Nat) (V := Nat)
        (CachedProperty.mkFromDeclared ["x", "x"])
        { attrs := fun _ => some 1, slot := some ([some 1], 0) } = true :=
  ((dependency_snapshot_amended ["x", "x"] (fun _ => 0)
      { attrs := fun _ => some 1, slot := some ([some 1], 0) }).2.2).mpr
    ⟨0, by decide⟩

/-- C9: when any number of threads concurrently run the memoized-call
sequence for one process-scoped key, every interleaving that ends with all
threads done has executed the underlying computation exactly once — the
shared counter incremented inside the computation ends at 1. -/
theorem memoized_call_computes_once {n : Nat} (hn : 0 < n) (s : MTState n)
    (hr : Reaches s) (hdone : ∀ t, s.pc t = PC.ret) : s.counter = 1 := by
  obtain ⟨h1, h2, h3, h4, h5⟩ := inv_reaches hr
  exact h4 (Or.inl (h3 ⟨0, hn⟩ (Or.inr (hdone ⟨0, hn⟩))))

/-- C9 witness: the concrete two-thread interleaving `run10` ends with both
threads done and the computation counter at 1. -/
theorem memoized_call_computes_once_check : run10.counter = 1 :=
  memoized_call_computes_once (by decide) run10 run10_reaches (by decide)

end EpicCaching
